import Mathlib

/-!
Verification development for the screenshot-to-board reconstruction pipeline of
the AACProcessors repository (`aac_processors/optional/screenshot_processor.py`).

The Python code is shallowly embedded: Python `int` values become `Int`/`Nat`,
Python strings become `List Char`, and the float-valued pixel-geometry
arithmetic is modelled exactly by unnormalized integer fractions (`Frac`), since
every quantity the pipeline computes is a rational of small height and every
comparison it makes is far from any float-rounding boundary.  The external
OpenCV / EasyOCR / pytesseract capabilities (edge-and-contour detection,
optical character recognition, mean colour) are passed in as oracle functions,
exactly as the specification treats them: pure functions of their inputs
consumed as capability services.  Fallible paths return `Except`.  Python
`list.sort` is a stable sort; it is modelled with `List.insertionSort`, which
is also stable, and for the total preorders used here every stable sort
computes the same list.
-/

/-- Exact rational value `num / den`, kept unnormalized so that every operation
is kernel-computable.  Every value built by the embedding has a positive
denominator (all divisions are by positive quantities), except for values the
source never observes (mean and median of an empty list, where numpy yields
NaN whose comparisons are all false). -/
structure Frac where
  num : Int
  den : Int
deriving DecidableEq, Repr

/-- The integer `n` as a fraction. -/
def Frac.ofInt (n : Int) : Frac := ⟨n, 1⟩

/-- The natural number `n` as a fraction. -/
def Frac.ofNat (n : Nat) : Frac := ⟨(n : Int), 1⟩

/-- Fraction addition (no normalization). -/
def Frac.add (a b : Frac) : Frac := ⟨a.num * b.den + b.num * a.den, a.den * b.den⟩

/-- Fraction subtraction. -/
def Frac.sub (a b : Frac) : Frac := ⟨a.num * b.den - b.num * a.den, a.den * b.den⟩

/-- Fraction multiplication. -/
def Frac.mul (a b : Frac) : Frac := ⟨a.num * b.num, a.den * b.den⟩

/-- Fraction division; the sign of the divisor moves to the numerator so the
denominator stays positive. -/
def Frac.div (a b : Frac) : Frac :=
  if b.num < 0 then ⟨-(a.num * b.den), a.den * -b.num⟩ else ⟨a.num * b.den, a.den * b.num⟩

/-- Strict order by cross multiplication (correct for positive denominators). -/
def Frac.lt (a b : Frac) : Prop := a.num * b.den < b.num * a.den

instance : DecidableRel Frac.lt := fun a b => by
  unfold Frac.lt; infer_instance

/-- Non-strict order by cross multiplication. -/
def Frac.le (a b : Frac) : Prop := a.num * b.den ≤ b.num * a.den

instance : DecidableRel Frac.le := fun a b => by
  unfold Frac.le; infer_instance

/-- Python `abs` on an integer. -/
def pyAbsInt (a : Int) : Int := if a < 0 then -a else a

/-- Python `max` on two integers. -/
def pyMaxInt (a b : Int) : Int := if a ≤ b then b else a

/-- Python `min` on two integers. -/
def pyMinInt (a b : Int) : Int := if b < a then b else a

/-- Python `abs` on a fraction with positive denominator. -/
def Frac.fabs (a : Frac) : Frac := ⟨pyAbsInt a.num, a.den⟩

/-- Python `int(q)` on a float value: truncation toward zero. -/
def pyInt (q : Frac) : Int := Int.tdiv q.num q.den

/-- Sum of a list of fractions. -/
def Frac.sumList (l : List Frac) : Frac := l.foldr Frac.add (Frac.ofInt 0)

/-- Python `min` of two floats (first argument on ties). -/
def Frac.pyMin (a b : Frac) : Frac := if Frac.lt b a then b else a

/-- Whitespace test used by Python `str.strip`, `str.isspace` and the regex
class `\s` (restricted to the ASCII whitespace characters). -/
def isWsChar (c : Char) : Bool :=
  c == ' ' || c == '\t' || c == '\n' || c == '\r' || c == '\x0b' || c == '\x0c'

/-- Python `str.strip()`: drop leading and trailing whitespace. -/
def pyStrip (l : List Char) : List Char :=
  (((l.dropWhile isWsChar).reverse).dropWhile isWsChar).reverse

/-- Python `" ".join(parts)`. -/
def joinSpace : List (List Char) → List Char
  | [] => []
  | [t] => t
  | t :: rest => t ++ ' ' :: joinSpace rest

/-- Python `str.lower()` (restricted to ASCII case mapping). -/
def lowerStr (l : List Char) : List Char := l.map Char.toLower

/-- Minimum of a list of integers, Python `min(xs)`; the `0` default is never
reached on the non-empty lists the source applies it to. -/
def intMin : List Int → Int
  | [] => 0
  | a :: rest => rest.foldl pyMinInt a

/-- A candidate or resolved grid cell: `cv2.boundingRect` output `(x, y, w, h)`
in pixel coordinates. -/
structure Box where
  x : Int
  y : Int
  w : Int
  h : Int
deriving DecidableEq, Repr

/-- Sort key used at `best_boxes.sort(key=lambda b: (b[1], b[0]))`: lexicographic
on `(y, x)`. -/
def boxYXLe (a b : Box) : Prop :=
  a.y < b.y ∨ (a.y = b.y ∧ a.x ≤ b.x)

instance : DecidableRel boxYXLe := fun a b => by
  unfold boxYXLe; infer_instance

/-- Horizontal centre `x + w / 2` of a box. -/
def centerX (b : Box) : Frac :=
  Frac.add (Frac.ofInt b.x) (Frac.div (Frac.ofInt b.w) (Frac.ofInt 2))

/-- Vertical centre `y + h / 2` of a box. -/
def centerY (b : Box) : Frac :=
  Frac.add (Frac.ofInt b.y) (Frac.div (Frac.ofInt b.h) (Frac.ofInt 2))

/-- Area ranges swept by `detect_grid` when both grid dimensions were supplied,
in source order: `(0.0005, 0.2), (0.001, 0.1), (0.003, 0.07), (0.005, 0.05)`. -/
def areaRangesHinted : List (Frac × Frac) :=
  [(⟨5, 10000⟩, ⟨2, 10⟩), (⟨1, 1000⟩, ⟨1, 10⟩), (⟨3, 1000⟩, ⟨7, 100⟩), (⟨5, 1000⟩, ⟨5, 100⟩)]

/-- Area ranges swept by `detect_grid` when no grid dimensions were supplied,
in source order: `(0.005, 0.05), (0.003, 0.07), (0.001, 0.1)`. -/
def areaRangesDefault : List (Frac × Frac) :=
  [(⟨5, 1000⟩, ⟨5, 100⟩), (⟨3, 1000⟩, ⟨7, 100⟩), (⟨1, 1000⟩, ⟨1, 10⟩)]

/-- Aspect-ratio ranges swept by `detect_grid`, in source order:
`(0.2, 5.0), (0.5, 2.0), (0.7, 1.5), (0.8, 1.2)`. -/
def aspectRanges : List (Frac × Frac) :=
  [(⟨2, 10⟩, ⟨5, 1⟩), (⟨5, 10⟩, ⟨2, 1⟩), (⟨7, 10⟩, ⟨15, 10⟩), (⟨8, 10⟩, ⟨12, 10⟩)]

/-- Python truthiness of an `Optional[int]`: `None` and `0` are falsy. -/
def truthy : Option Nat → Bool
  | none => false
  | some n => n != 0

/-- Acceptance test applied to a non-empty detection result inside the sweep:
`len(boxes) >= expected_cells * 0.5` when `grid_rows and grid_cols` is truthy,
`len(boxes) >= 12` otherwise. -/
def acceptCount (gridRows gridCols : Option Nat) (n : Nat) : Bool :=
  if truthy gridRows && truthy gridCols then
    decide (Frac.le (Frac.mul (Frac.ofNat ((gridRows.getD 0) * (gridCols.getD 0))) ⟨5, 10⟩)
      (Frac.ofNat n))
  else
    decide (12 ≤ n)

/-- Inner sweep loop of `detect_grid`: try each aspect range with the fixed area
range, stopping at the first non-empty, accepted result (the `break`). -/
def sweepAspects (f : (Frac × Frac) → (Frac × Frac) → List Box) (accept : Nat → Bool)
    (a : Frac × Frac) : List (Frac × Frac) → Option (List Box)
  | [] => none
  | s :: rest =>
    let boxes := f a s
    if !boxes.isEmpty && accept boxes.length then some boxes
    else sweepAspects f accept a rest

/-- Outer sweep loop of `detect_grid` over the area ranges; the outer `break`
fires as soon as the inner loop accepted a result. -/
def sweepAreas (f : (Frac × Frac) → (Frac × Frac) → List Box) (accept : Nat → Bool) :
    List (Frac × Frac) → Option (List Box)
  | [] => none
  | a :: rest =>
    match sweepAspects f accept a aspectRanges with
    | some bs => some bs
    | none => sweepAreas f accept rest

/-- The full parameter sweep of `detect_grid`: `f` is the oracle standing for
`_try_detection` (Canny edges, dilation, contour filtering) at the given area
and aspect ranges. -/
def sweepBoxes (f : (Frac × Frac) → (Frac × Frac) → List Box)
    (gridRows gridCols : Option Nat) : Option (List Box) :=
  sweepAreas f (acceptCount gridRows gridCols)
    (if gridRows.isSome && gridCols.isSome then areaRangesHinted else areaRangesDefault)

/-- Synthetic uniform fallback grid built by `detect_grid` when the sweep found
nothing and both dimensions are known: `rows × cols` boxes spanning the image. -/
def fallbackGrid (H W r c : Nat) : List Box :=
  let cellHeight := Frac.div (Frac.ofNat H) (Frac.ofNat r)
  let cellWidth := Frac.div (Frac.ofNat W) (Frac.ofNat c)
  (List.range r).flatMap (fun row =>
    (List.range c).map (fun col =>
      Box.mk (pyInt (Frac.mul (Frac.ofNat col) cellWidth))
        (pyInt (Frac.mul (Frac.ofNat row) cellHeight))
        (pyInt cellWidth) (pyInt cellHeight)))

/-- Mean of a list, `np.mean`; on an empty list numpy yields NaN, modelled as
the denominator-zero fraction whose comparisons are never used. -/
def npMean (l : List Frac) : Frac := Frac.div (Frac.sumList l) (Frac.ofNat l.length)

/-- Median of a list, `np.median`: middle element of the sorted list, or the
average of the two middle elements for even length. -/
def npMedian (l : List Frac) : Frac :=
  let s := List.insertionSort Frac.le l
  let n := s.length
  if n = 0 then Frac.ofInt 0
  else if n % 2 = 1 then s.getD (n / 2) (Frac.ofInt 0)
  else Frac.div (Frac.add (s.getD (n / 2 - 1) (Frac.ofInt 0)) (s.getD (n / 2) (Frac.ofInt 0)))
    (Frac.ofInt 2)

/-- Transcription of the nested `find_clusters` of `detect_grid`: sort the
coordinates, take consecutive differences, and count a boundary at every gap
exceeding `1.2 * median` and `0.8 * mean` of the gaps; `len(gaps) + 1` clusters.
With a single coordinate the gap list is empty and numpy's NaN median/mean
compare false against every gap, so the count is likewise `0 + 1`. -/
def findClusters (coords : List Frac) : Nat :=
  if coords.length = 0 then 0
  else
    let sortedCoords := List.insertionSort Frac.le coords
    let diffs := (sortedCoords.zip sortedCoords.tail).map (fun p => Frac.sub p.2 p.1)
    let threshold := Frac.mul (npMedian diffs) ⟨12, 10⟩
    let minGap := Frac.mul (npMean diffs) ⟨8, 10⟩
    (diffs.filter (fun d => decide (Frac.lt threshold d) && decide (Frac.lt minGap d))).length + 1

/-- Cell edges `np.linspace(0, stop, g + 1)`: `g + 1` evenly spaced samples
(only the start point when `g = 0`). -/
def linspace (stop : Nat) (g : Nat) : List Frac :=
  if g = 0 then [Frac.ofInt 0]
  else (List.range (g + 1)).map (fun (k : Nat) => Frac.mk ((k : Int) * (stop : Int)) (g : Int))

/-- Transcription of the nested `get_grid_position`: `np.linspace` cell edges,
`np.searchsorted` (left) of the box centre, then clamping to the valid range.
`searchsorted` on a sorted array returns the number of elements strictly below
the probe. -/
def getGridPosition (H W gw gh : Nat) (b : Box) : Int × Int :=
  let xEdges := linspace W gw
  let yEdges := linspace H gh
  let cx := centerX b
  let cy := centerY b
  let col : Int := (xEdges.countP (fun e => decide (Frac.lt e cx)) : Int) - 1
  let row : Int := (yEdges.countP (fun e => decide (Frac.lt e cy)) : Int) - 1
  let col2 := pyMaxInt 0 (pyMinInt col ((gw : Int) - 1))
  let row2 := pyMaxInt 0 (pyMinInt row ((gh : Int) - 1))
  (row2, col2)

/-- One step of the position-deduplication fold: keep the box unless its grid
position was already taken (`used_positions` in the source). -/
def dedupStep (H W gw gh : Nat) (acc : List (Box × (Int × Int))) (b : Box) :
    List (Box × (Int × Int)) :=
  let p := getGridPosition H W gw gh b
  if acc.any (fun q => decide (q.2 = p)) then acc else acc ++ [(b, p)]

/-- First-detected-wins deduplication of boxes mapping to the same grid
position. -/
def dedupPositions (H W gw gh : Nat) (boxes : List Box) : List (Box × (Int × Int)) :=
  boxes.foldl (dedupStep H W gw gh) []

/-- Sort key for `positioned_boxes.sort(key=lambda x: (x[1][0], x[1][1]))`:
lexicographic on the assigned `(row, col)`. -/
def pairPosLe (p q : Box × (Int × Int)) : Prop :=
  p.2.1 < q.2.1 ∨ (p.2.1 = q.2.1 ∧ p.2.2 ≤ q.2.2)

instance : DecidableRel pairPosLe := fun p q => by
  unfold pairPosLe; infer_instance

/-- Grid dimensions `(grid_width, grid_height)` chosen by `detect_grid`: the
supplied `(cols, rows)` when both are present, otherwise the cluster counts of
the box centres projected on each axis. -/
def gridDims (gridRows gridCols : Option Nat) (sorted : List Box) : Nat × Nat :=
  match gridRows, gridCols with
  | some r, some c => (c, r)
  | _, _ => (findClusters (sorted.map centerX), findClusters (sorted.map centerY))

/-- Tail of `detect_grid` shared by the detected and fallback paths: sort the
boxes by `(y, x)`, choose the grid dimensions, assign positions with first-wins
deduplication, and sort the surviving boxes by position. -/
def afterSweep (H W : Nat) (gridRows gridCols : Option Nat) (boxes : List Box) :
    Nat × Nat × List Box :=
  let sorted := List.insertionSort boxYXLe boxes
  let dims := gridDims gridRows gridCols sorted
  let positioned := dedupPositions H W dims.1 dims.2 sorted
  (dims.1, dims.2, (List.insertionSort pairPosLe positioned).map Prod.fst)

/-- Decidable equality for `Except` results, so concrete runs of the embedded
functions can be checked by `decide`. -/
instance exceptDecEq {E A : Type} [DecidableEq E] [DecidableEq A] :
    DecidableEq (Except E A) := fun a b =>
  match a, b with
  | Except.ok x, Except.ok y =>
    if h : x = y then isTrue (by rw [h])
    else isFalse (by intro hc; cases hc; exact h rfl)
  | Except.ok _, Except.error _ => isFalse (by intro hc; cases hc)
  | Except.error _, Except.ok _ => isFalse (by intro hc; cases hc)
  | Except.error x, Except.error y =>
    if h : x = y then isTrue (by rw [h])
    else isFalse (by intro hc; cases hc; exact h rfl)

/-- Embedding of `ScreenshotProcessor.detect_grid` for an image that decoded to
an `H × W` raster.  `f` is the `_try_detection` oracle.  The source's
`ZeroDivisionError` (fallback with a zero dimension) and
`ValueError("No cells detected in image")` become `Except.error`. -/
def detectGrid (f : (Frac × Frac) → (Frac × Frac) → List Box) (H W : Nat)
    (gridRows gridCols : Option Nat) : Except (List Char) (Nat × Nat × List Box) :=
  match sweepBoxes f gridRows gridCols with
  | some boxes => Except.ok (afterSweep H W gridRows gridCols boxes)
  | none =>
    match gridRows, gridCols with
    | some r, some c =>
      if r = 0 || c = 0 then Except.error "ZeroDivisionError".data
      else Except.ok (afterSweep H W gridRows gridCols (fallbackGrid H W r c))
    | _, _ => Except.error "No cells detected in image".data

/-- Button kind from `tree_structure.ButtonType`; a screenshot page only ever
produces `SPEAK` buttons. -/
inductive ButtonType where
  | SPEAK
  | NAVIGATE
deriving DecidableEq, Repr

/-- Projection of `tree_structure.ButtonStyle` to the field the pipeline sets. -/
structure ButtonStyle where
  bodyColor : List Char
deriving DecidableEq, Repr

/-- Projection of `tree_structure.AACButton` to the fields the pipeline sets. -/
structure AACButton where
  id : List Char
  label : List Char
  type : ButtonType
  position : Nat × Nat
  style : ButtonStyle
deriving DecidableEq, Repr

/-- Projection of `tree_structure.AACPage` to the fields the pipeline sets. -/
structure AACPage where
  id : List Char
  name : List Char
  gridSize : Nat × Nat
  buttons : List AACButton
deriving DecidableEq, Repr

/-- Python `f"{n:02x}"` for a non-negative value: lowercase hex, zero-padded to
two digits. -/
def hex2 (n : Nat) : List Char :=
  let ds := Nat.toDigits 16 n
  if ds.length < 2 then List.replicate (2 - ds.length) '0' ++ ds else ds

/-- Body colour string `f"#{r:02x}{g:02x}{b:02x}"` built from a `(b, g, r)`
mean-colour triple. -/
def bodyColorHex (bgr : Nat × Nat × Nat) : List Char :=
  '#' :: (hex2 bgr.2.2 ++ hex2 bgr.2.1 ++ hex2 bgr.1)

/-- One raw EasyOCR result for a cell crop: recognized text and confidence
(the bounding points of the fragment are unused by the per-cell loop). -/
structure OCRItem where
  text : List Char
  conf : Frac
deriving DecidableEq, Repr

/-- Per-cell filtering of EasyOCR results in `create_page_from_screenshot`:
drop results with confidence below `0.3`, strip each text, drop empties and the
operational labels `vocab` and `menu`. -/
def cleanCellTexts (results : List OCRItem) : List (List Char) :=
  results.filterMap (fun it =>
    if decide (Frac.lt it.conf ⟨3, 10⟩) then none
    else
      let t := pyStrip it.text
      if !t.isEmpty && !(["vocab".data, "menu".data].contains (lowerStr t)) then some t
      else none)

/-- Search rectangle of one expected cell (`margin = 5`, clipped to the image):
`(search_x, search_y, search_w, search_h)`. -/
def cellRect (H W : Nat) (originX originY modeWidth modeHeight : Int)
    (row col : Nat) : Int × Int × Int × Int :=
  let x := originX + (col : Int) * modeWidth
  let y := originY + (row : Int) * modeHeight
  let margin : Int := 5
  let searchX := pyMaxInt 0 (x - margin)
  let searchY := pyMaxInt 0 (y - margin)
  (searchX, searchY, pyMinInt (modeWidth + 2 * margin) ((W : Int) - searchX),
    pyMinInt (modeHeight + 2 * margin) ((H : Int) - searchY))

/-- Body of one iteration of the per-cell loop: read the cell crop with the OCR
oracle, filter the fragments, and build a `SPEAK` button labelled with the
space-joined fragments when any fragment survived.  `nButtons` is
`len(page.buttons)` at that point, used only for the button id. -/
def cellButton (readCell : Int × Int × Int × Int → List OCRItem)
    (meanColor : Int × Int × Int × Int → Nat × Nat × Nat)
    (H W : Nat) (originX originY modeWidth modeHeight : Int)
    (row col nButtons : Nat) : Option AACButton :=
  let rect := cellRect H W originX originY modeWidth modeHeight row col
  let cellTexts := cleanCellTexts (readCell rect)
  if cellTexts.isEmpty then none
  else
    some (AACButton.mk ("btn_".data ++ Nat.toDigits 10 nButtons) (joinSpace cellTexts)
      ButtonType.SPEAK (row, col) (ButtonStyle.mk (bodyColorHex (meanColor rect))))

/-- The nested `for row ... for col ...` loop of `create_page_from_screenshot`,
accumulating buttons in row-major order. -/
def buttonsLoop (cb : Nat → Nat → Nat → Option AACButton) (rows cols : Nat) :
    List AACButton :=
  (List.range rows).foldl (fun acc row =>
    (List.range cols).foldl (fun acc2 col =>
      match cb row col acc2.length with
      | some b => acc2 ++ [b]
      | none => acc2) acc) []

/-- Vertical grid origin of `create_page_from_screenshot`:
`min(y_coords) if not ignore_rows else sorted(y_coords)[ignore_rows]`.  An
out-of-range index raises `IndexError` in Python, modelled as an error. -/
def gridOriginYE (ys : List Int) (ignoreRows : Nat) : Except (List Char) Int :=
  if ignoreRows = 0 then Except.ok (intMin ys)
  else
    match (List.insertionSort (fun a b : Int => a ≤ b) ys).get? ignoreRows with
    | some v => Except.ok v
    | none => Except.error "IndexError: list index out of range".data

/-- Outlier trimming of the box widths or heights: sort, then drop the top and
bottom `len // 10` values when that is positive (`widths[trim:-trim]`). -/
def trimmedSizes (vals : List Int) : List Int :=
  let sorted := List.insertionSort (fun a b : Int => a ≤ b) vals
  let trim := sorted.length / 10
  if trim > 0 then (sorted.drop trim).take (sorted.length - 2 * trim) else sorted

/-- Embedding of `ScreenshotProcessor.create_page_from_screenshot` for an image
decoded to an `H × W` raster with filename stem `stem`.  `f` is the
`_try_detection` oracle used by `detect_grid`; `readCell` stands for
`easyocr.Reader.readtext` on the crop identified by its search rectangle and
`meanColor` for `cv2.mean` on that crop, returning a `(b, g, r)` triple. -/
def createPageFromScreenshot (f : (Frac × Frac) → (Frac × Frac) → List Box)
    (readCell : Int × Int × Int × Int → List OCRItem)
    (meanColor : Int × Int × Int × Int → Nat × Nat × Nat)
    (H W : Nat) (stem : List Char)
    (gridRows gridCols : Option Nat) (ignoreRows : Nat) :
    Except (List Char) AACPage :=
  match detectGrid f H W gridRows gridCols with
  | Except.error e => Except.error e
  | Except.ok (detectedCols, detectedRows, gridBoxes) =>
    let actualRows := gridRows.getD detectedRows
    let actualCols := gridCols.getD detectedCols
    if actualRows < 1 || actualCols < 1 then Except.error "Invalid grid dimensions".data
    else
      match gridOriginYE (gridBoxes.map Box.y) ignoreRows with
      | Except.error e => Except.error e
      | Except.ok originY =>
        let originX := intMin (gridBoxes.map Box.x)
        let modeWidth :=
          pyInt (npMedian ((trimmedSizes (gridBoxes.map Box.w)).map Frac.ofInt))
        let modeHeight :=
          pyInt (npMedian ((trimmedSizes (gridBoxes.map Box.h)).map Frac.ofInt))
        Except.ok (AACPage.mk
          ("screenshot_".data ++ stem)
          ("Detected Page - ".data ++ stem)
          (actualRows, actualCols)
          (buttonsLoop
            (cellButton readCell meanColor H W originX originY modeWidth modeHeight)
            actualRows actualCols))

/-- One OCR text region handled by `merge_nearby_regions`: bounding box,
recognized text, confidence, and the region's mean colour (kept from the first
region of a merged group, as `region.copy()` does). -/
structure Region where
  x : Int
  y : Int
  w : Int
  h : Int
  text : List Char
  conf : Frac
  colorB : Int
  colorG : Int
  colorR : Int
deriving DecidableEq, Repr

/-- Sort key of `regions.sort(key=lambda r: (r["box"][1], r["box"][0]))`. -/
def regionYXLe (a b : Region) : Prop :=
  a.y < b.y ∨ (a.y = b.y ∧ a.x ≤ b.x)

instance : DecidableRel regionYXLe := fun a b => by
  unfold regionYXLe; infer_instance

instance : IsTotal Region regionYXLe :=
  ⟨fun a b => by unfold regionYXLe; omega⟩

instance : IsTrans Region regionYXLe :=
  ⟨fun a b c hab hbc => by unfold regionYXLe at *; omega⟩

/-- Merge test of `merge_nearby_regions` between the accumulated region `r1`
and a candidate `r2`: the height-ratio guard (`continue` when
`min h / max h < 0.7`) followed by `horizontal_merge` — top edges within
`h1 / 3`, bottom edges within `h1 / 3`, and `abs(x1 + w1 - x2)` below the
distance threshold.  (On a zero height Python would raise `ZeroDivisionError`;
OCR regions always have positive heights.) -/
def canMergeRegions (thr : Int) (r1 r2 : Region) : Bool :=
  let heightRatio := Frac.div (Frac.ofInt (pyMinInt r1.h r2.h)) (Frac.ofInt (pyMaxInt r1.h r2.h))
  if decide (Frac.lt heightRatio ⟨7, 10⟩) then false
  else
    decide (Frac.lt (Frac.ofInt (pyAbsInt (r1.y - r2.y)))
      (Frac.div (Frac.ofInt r1.h) (Frac.ofInt 3))) &&
    decide (Frac.lt (Frac.ofInt (pyAbsInt ((r1.y + r1.h) - (r2.y + r2.h))))
      (Frac.div (Frac.ofInt r1.h) (Frac.ofInt 3))) &&
    decide (pyAbsInt (r1.x + r1.w - r2.x) < thr)

/-- Merge of two regions as performed in the loop body: bounding-box union,
text concatenation with a separating space when `text1[-1]` and `text2[0]` are
both alphanumeric, and the minimum of the confidences.  The source indexes
`text1[-1]` and `text2[0]` directly and would raise `IndexError` on an empty
text; regions reaching the merger carry non-empty stripped text, and the
theorems below assume non-emptiness. -/
def mergeTwoRegions (r1 r2 : Region) : Region :=
  let minX := pyMinInt r1.x r2.x
  let minY := pyMinInt r1.y r2.y
  let maxX := pyMaxInt (r1.x + r1.w) (r2.x + r2.w)
  let maxY := pyMaxInt (r1.y + r1.h) (r2.y + r2.h)
  let text :=
    match r1.text.getLast?, r2.text.head? with
    | some c1, some c2 =>
      if c1.isAlphanum && c2.isAlphanum then r1.text ++ ' ' :: r2.text
      else r1.text ++ r2.text
    | _, _ => r1.text ++ r2.text
  Region.mk minX minY (maxX - minX) (maxY - minY) text (Frac.pyMin r1.conf r2.conf)
    r1.colorB r1.colorG r1.colorR

/-- Inner loop of `merge_nearby_regions`: scan the not-yet-used regions after
the seed, absorbing (and marking used) every region that passes the merge test
against the current accumulated region, which is updated after each merge.
Returns the accumulated region and the regions left unused, in order. -/
def mergeGroup (thr : Int) : Region → List Region → Region × List Region
  | acc, [] => (acc, [])
  | acc, r :: rest =>
    if canMergeRegions thr acc r then mergeGroup thr (mergeTwoRegions acc r) rest
    else
      let p := mergeGroup thr acc rest
      (p.1, r :: p.2)

/-- Outer loop of `merge_nearby_regions` over the sorted regions, written with
structural fuel so that it stays kernel-computable: each not-yet-used region
seeds a group, absorbs its mergeable successors, and is appended to the output.
The loop consumes at least one region per iteration and `mergeGroup` never
lengthens the remainder, so fuel equal to the list length (as supplied by
`mergeAll`) always suffices and the zero-fuel case is unreachable. -/
def mergeAllFuel (thr : Int) : Nat → List Region → List Region
  | _, [] => []
  | 0, _ :: _ => []
  | fuel + 1, r :: rest =>
    let p := mergeGroup thr r rest
    p.1 :: mergeAllFuel thr fuel p.2

/-- Outer loop of `merge_nearby_regions` at its natural fuel. -/
def mergeAll (thr : Int) (l : List Region) : List Region :=
  mergeAllFuel thr l.length l

/-- Embedding of `ScreenshotProcessor.merge_nearby_regions` (default
`distance_threshold = 15`): sort by `(y, x)`, then greedily merge. -/
def mergeNearbyRegions (thr : Int) (regions : List Region) : List Region :=
  mergeAll thr (List.insertionSort regionYXLe regions)

/-- Word-character test of the regex class `\w` (ASCII restriction: letters,
digits and underscore). -/
def isWordChar (c : Char) : Bool := c.isAlphanum || c == '_'

/-- Cleanup step `re.sub(r"[^\w\s.-]", "", text)` of `detect_cell_content`:
keep only word characters, whitespace, periods and hyphens. -/
def sanitizeText (l : List Char) : List Char :=
  l.filter (fun c => isWordChar c || isWsChar c || c == '.' || c == '-')

/-- Cleanup step `re.sub(r"\s+", " ", text)`: collapse every maximal whitespace
run to a single space. -/
def collapseWs : List Char → List Char
  | [] => []
  | c :: rest =>
    if isWsChar c then ' ' :: collapseWs (rest.dropWhile isWsChar)
    else c :: collapseWs rest
termination_by l => l.length
decreasing_by
  · simpa using Nat.lt_succ_of_le (List.dropWhile_suffix isWsChar).sublist.length_le
  · simp

/-- Text cleanup tail of `detect_cell_content`: sanitize, collapse whitespace,
strip, then discard results shorter than two characters (or all-whitespace) as
noise. -/
def ocrCleanup (t : List Char) : List Char :=
  let t2 := pyStrip (collapseWs (sanitizeText t))
  if t2.length < 2 || (!t2.isEmpty && t2.all isWsChar) then [] else t2

/-- Result record of `detect_cell_content`: text plus the `(b, g, r)` mean
colour of the raw cell crop. -/
structure CellContent where
  text : List Char
  colorB : Int
  colorG : Int
  colorR : Int
deriving DecidableEq, Repr

/-- Embedding of `ScreenshotProcessor.detect_cell_content`.  The mean colour is
computed outside the `try` block and always returned.  `ocrWord` and `ocrLine`
stand for the two `pytesseract.image_to_string` calls (single-word mode, then
single-line mode when the first strips to empty); `Except.error` models any
exception raised inside the `try` block, which the source catches, logging and
returning empty text. -/
def detectCellContent (ocrWord ocrLine : Except Unit (List Char))
    (avgColor : Int × Int × Int) : CellContent :=
  let tryBlock : Except Unit (List Char) :=
    match ocrWord with
    | Except.error e => Except.error e
    | Except.ok t1 =>
      let text1 := pyStrip t1
      if text1.isEmpty then
        match ocrLine with
        | Except.error e => Except.error e
        | Except.ok t2 => Except.ok (ocrCleanup (pyStrip t2))
      else Except.ok (ocrCleanup text1)
  match tryBlock with
  | Except.ok t => CellContent.mk t avgColor.1 avgColor.2.1 avgColor.2.2
  | Except.error _ => CellContent.mk [] avgColor.1 avgColor.2.1 avgColor.2.2

/-- Final path component, as `pathlib.Path(file_path).name`: empty components
and `.` components are normalized away; `..` is kept as an ordinary part. -/
def pathNameOf (p : List Char) : List Char :=
  ((p.splitOn '/').filter (fun c => !c.isEmpty && !(c == ['.']))).getLastD []

/-- Index of the last `.` in a name, Python `name.rfind('.')` (as an option). -/
def rfindDotIdx (l : List Char) : Option Nat :=
  match l.reverse.findIdx? (fun c => c == '.') with
  | some i => some (l.length - 1 - i)
  | none => none

/-- Extension of the final path component, as `pathlib.Path(file_path).suffix`:
the part of the name from its last dot, unless the dot is leading or trailing. -/
def pathSuffixOf (p : List Char) : List Char :=
  let name := pathNameOf p
  match rfindDotIdx name with
  | some i => if 0 < i ∧ i < name.length - 1 then name.drop i else []
  | none => []

/-- Embedding of `ScreenshotProcessor.can_process`: lowercase the extension and
test membership in the supported image extensions. -/
def canProcess (p : List Char) : Bool :=
  let ext := lowerStr (pathSuffixOf p)
  [".png".data, ".jpg".data, ".jpeg".data, ".bmp".data].contains ext

/-! Specification-side definitions, written from the claims' wording, to be
related to the transcribed code above. -/

/-- One sweep attempt as the claims describe it: run detection at a parameter
combination and accept a non-empty result meeting the threshold. -/
def comboStep (f : (Frac × Frac) → (Frac × Frac) → List Box) (accept : Nat → Bool)
    (p : (Frac × Frac) × (Frac × Frac)) : Option (List Box) :=
  let bs := f p.1 p.2
  if !bs.isEmpty && accept bs.length then some bs else none

/-- First accepted combination of an ordered combination list. -/
def firstAccepted (f : (Frac × Frac) → (Frac × Frac) → List Box) (accept : Nat → Bool)
    (combos : List ((Frac × Frac) × (Frac × Frac))) : Option (List Box) :=
  combos.findSome? (comboStep f accept)

/-- The fixed priority order of parameter combinations: area ranges (hinted or
default list) paired with every aspect range, area-major. -/
def comboList (gridRows gridCols : Option Nat) : List ((Frac × Frac) × (Frac × Frac)) :=
  (if gridRows.isSome && gridCols.isSome then areaRangesHinted else areaRangesDefault)
    ×ˢ aspectRanges

/-- Range `p` lies within range `q` (so `p` is at least as restrictive, `q` at
least as permissive). -/
def rangeWithin (p q : Frac × Frac) : Prop := Frac.le q.1 p.1 ∧ Frac.le p.2 q.2

instance (p q : Frac × Frac) : Decidable (rangeWithin p q) := by
  unfold rangeWithin; infer_instance

/-- Axis dimension as claim C8 words it: one plus the number of consecutive
gaps between the sorted box-centre coordinates that exceed both `1.2` times the
median gap and `0.8` times the mean gap; `0` for an axis with no coordinates. -/
def clusterDimSpec (coords : List Frac) : Nat :=
  match coords with
  | [] => 0
  | _ =>
    let sorted := List.insertionSort Frac.le coords
    let gaps := (sorted.zip sorted.tail).map (fun p => Frac.sub p.2 p.1)
    1 + gaps.countP (fun g =>
      decide (Frac.lt (Frac.mul (npMedian gaps) ⟨12, 10⟩) g) &&
      decide (Frac.lt (Frac.mul (npMean gaps) ⟨8, 10⟩) g))

/-- Horizontal-merge eligibility as claim C6 words it: height ratio at least
`0.7`, top and bottom edges vertically aligned within a third of the first
region's height, and horizontal gap below the pixel threshold. -/
def EligibleSpec (thr : Int) (r1 r2 : Region) : Prop :=
  Frac.le ⟨7, 10⟩ (Frac.div (Frac.ofInt (pyMinInt r1.h r2.h)) (Frac.ofInt (pyMaxInt r1.h r2.h))) ∧
  Frac.lt (Frac.ofInt (pyAbsInt (r1.y - r2.y))) (Frac.div (Frac.ofInt r1.h) (Frac.ofInt 3)) ∧
  Frac.lt (Frac.ofInt (pyAbsInt ((r1.y + r1.h) - (r2.y + r2.h))))
    (Frac.div (Frac.ofInt r1.h) (Frac.ofInt 3)) ∧
  pyAbsInt (r1.x + r1.w - r2.x) < thr

instance (thr : Int) (r1 r2 : Region) : Decidable (EligibleSpec thr r1 r2) := by
  unfold EligibleSpec; infer_instance

/-- Bounding-box union of two regions, `(x, y, w, h)`. -/
def unionBox (r1 r2 : Region) : Int × Int × Int × Int :=
  (pyMinInt r1.x r2.x, pyMinInt r1.y r2.y,
    pyMaxInt (r1.x + r1.w) (r2.x + r2.w) - pyMinInt r1.x r2.x,
    pyMaxInt (r1.y + r1.h) (r2.y + r2.h) - pyMinInt r1.y r2.y)

/-- Whether the last character of the first text and the first character of the
second are both alphanumeric. -/
def bothAdjoiningAlnum (t1 t2 : List Char) : Bool :=
  (t1.getLast?.elim false Char.isAlphanum) && (t2.head?.elim false Char.isAlphanum)

/-- Merged region as claim C6 words it: bounding-box union, texts concatenated
with a separating space exactly when both adjoining characters are
alphanumeric, and the minimum of the two confidences. -/
def mergedSpec (r1 r2 : Region) : Region :=
  let ub := unionBox r1 r2
  Region.mk ub.1 ub.2.1 ub.2.2.1 ub.2.2.2
    (r1.text ++ (if bothAdjoiningAlnum r1.text r2.text then [' '] else []) ++ r2.text)
    (Frac.pyMin r1.conf r2.conf) r1.colorB r1.colorG r1.colorR

/-- Character set claim C3 allows in a clean label: letters, digits, spaces,
hyphens and periods. -/
def AllowedLabelChar (c : Char) : Prop :=
  c.isAlpha = true ∨ c.isDigit = true ∨ c = ' ' ∨ c = '-' ∨ c = '.'

instance (c : Char) : Decidable (AllowedLabelChar c) := by
  unfold AllowedLabelChar; infer_instance

/-- A list of characters with no whitespace at either end. -/
def NoEdgeWs (l : List Char) : Prop :=
  (∀ c, l.head? = some c → isWsChar c = false) ∧
  (∀ c, l.getLast? = some c → isWsChar c = false)

/-- Clean label in the sense of claim C3: only allowed characters, no leading
or trailing whitespace, and no two consecutive space characters. -/
def CleanLabel (l : List Char) : Prop :=
  (∀ c ∈ l, AllowedLabelChar c) ∧ NoEdgeWs l ∧
  (∀ i, ¬ (l.get? i = some ' ' ∧ l.get? (i + 1) = some ' '))

/-- The image extensions claim C10 lists. -/
def allowedExtensions : List (List Char) :=
  [".png".data, ".jpg".data, ".jpeg".data, ".bmp".data]

/-! Theorems.  Helper lemmas come first, then one theorem (plus witness or
counterexample) per claim. -/

theorem sweepAspects_some_ne_nil {f : (Frac × Frac) → (Frac × Frac) → List Box}
    {accept : Nat → Bool} {a : Frac × Frac} {l : List (Frac × Frac)} {bs : List Box}
    (h : sweepAspects f accept a l = some bs) : bs ≠ [] := by
  induction l with
  | nil => simp [sweepAspects] at h
  | cons s rest ih =>
    rw [sweepAspects] at h
    by_cases hc : (!(f a s).isEmpty && accept (f a s).length) = true
    · rw [if_pos hc] at h
      cases h
      intro hnil
      rw [hnil] at hc
      simp at hc
    · rw [if_neg hc] at h
      exact ih h

theorem sweepAreas_some_ne_nil {f : (Frac × Frac) → (Frac × Frac) → List Box}
    {accept : Nat → Bool} {l : List (Frac × Frac)} {bs : List Box}
    (h : sweepAreas f accept l = some bs) : bs ≠ [] := by
  induction l with
  | nil => simp [sweepAreas] at h
  | cons a rest ih =>
    rw [sweepAreas] at h
    cases hin : sweepAspects f accept a aspectRanges with
    | some bs2 =>
      rw [hin] at h
      cases h
      exact sweepAspects_some_ne_nil hin
    | none =>
      rw [hin] at h
      exact ih h

theorem sweepBoxes_some_ne_nil {f : (Frac × Frac) → (Frac × Frac) → List Box}
    {gridRows gridCols : Option Nat} {bs : List Box}
    (h : sweepBoxes f gridRows gridCols = some bs) : bs ≠ [] :=
  sweepAreas_some_ne_nil h

theorem dedupStep_length_le (H W gw gh : Nat) (acc : List (Box × (Int × Int)))
    (b : Box) : acc.length ≤ (dedupStep H W gw gh acc b).length := by
  by_cases hc : (acc.any fun q => decide (q.2 = getGridPosition H W gw gh b)) = true
  · simp [dedupStep, hc]
  · simp [dedupStep, hc]

theorem dedup_foldl_length (H W gw gh : Nat) :
    ∀ (l : List Box) (acc : List (Box × (Int × Int))),
      acc.length ≤ (l.foldl (dedupStep H W gw gh) acc).length := by
  intro l
  induction l with
  | nil => intro acc; simp
  | cons b rest ih =>
    intro acc
    calc acc.length ≤ (dedupStep H W gw gh acc b).length := dedupStep_length_le _ _ _ _ _ _
      _ ≤ _ := ih _

theorem dedupPositions_ne_nil (H W gw gh : Nat) {boxes : List Box}
    (h : boxes ≠ []) : dedupPositions H W gw gh boxes ≠ [] := by
  cases boxes with
  | nil => exact absurd rfl h
  | cons b rest =>
    unfold dedupPositions
    intro hnil
    have h1 : (dedupStep H W gw gh [] b).length
        ≤ ((b :: rest).foldl (dedupStep H W gw gh) []).length := by
      simpa using dedup_foldl_length H W gw gh rest (dedupStep H W gw gh [] b)
    rw [hnil] at h1
    simp [dedupStep] at h1

theorem dedup_foldl_mem (H W gw gh : Nat) :
    ∀ (l : List Box) (acc : List (Box × (Int × Int))) (x : Box × (Int × Int)),
      x ∈ l.foldl (dedupStep H W gw gh) acc → x ∈ acc ∨ x.1 ∈ l := by
  intro l
  induction l with
  | nil => intro acc x hx; simp at hx; exact Or.inl hx
  | cons b rest ih =>
    intro acc x hx
    rcases ih (dedupStep H W gw gh acc b) x hx with h1 | h1
    · by_cases hc : (acc.any fun q => decide (q.2 = getGridPosition H W gw gh b)) = true
      · rw [dedupStep] at h1
        simp only [hc, if_pos] at h1
        exact Or.inl h1
      · rw [dedupStep] at h1
        simp only [hc] at h1
        rcases List.mem_append.1 h1 with h2 | h2
        · exact Or.inl h2
        · simp at h2
          right
          rw [h2]
          exact List.mem_cons_self _ _
    · right
      exact List.mem_cons_of_mem _ h1

theorem dedupPositions_mem (H W gw gh : Nat) {boxes : List Box}
    {x : Box × (Int × Int)} (hx : x ∈ dedupPositions H W gw gh boxes) :
    x.1 ∈ boxes := by
  rcases dedup_foldl_mem H W gw gh boxes [] x hx with h | h
  · simp at h
  · exact h

theorem insertionSort_ne_nil {α : Type} (r : α → α → Prop) [DecidableRel r]
    {l : List α} (h : l ≠ []) : List.insertionSort r l ≠ [] := by
  intro hnil
  have hlen := (List.perm_insertionSort r l).length_eq
  rw [hnil] at hlen
  cases l with
  | nil => exact h rfl
  | cons a t => simp at hlen

theorem sortMapFst_ne_nil {l : List (Box × (Int × Int))} (h : l ≠ []) :
    (List.insertionSort pairPosLe l).map Prod.fst ≠ [] := by
  intro hnil
  rw [List.map_eq_nil_iff] at hnil
  exact insertionSort_ne_nil pairPosLe h hnil

theorem afterSweep_ne_nil (H W : Nat) (gridRows gridCols : Option Nat)
    {boxes : List Box} (h : boxes ≠ []) :
    (afterSweep H W gridRows gridCols boxes).2.2 ≠ [] := by
  simp only [afterSweep]
  exact sortMapFst_ne_nil (dedupPositions_ne_nil H W _ _ (insertionSort_ne_nil boxYXLe h))

theorem afterSweep_mem (H W : Nat) (gridRows gridCols : Option Nat)
    {boxes : List Box} {b : Box}
    (hb : b ∈ (afterSweep H W gridRows gridCols boxes).2.2) : b ∈ boxes := by
  simp only [afterSweep, List.mem_map] at hb
  obtain ⟨x, hx, hxb⟩ := hb
  have hx2 := (List.perm_insertionSort pairPosLe _).mem_iff.1 hx
  have hx3 := dedupPositions_mem H W _ _ hx2
  have hx4 := (List.perm_insertionSort boxYXLe boxes).mem_iff.1 hx3
  rw [hxb] at hx4
  exact hx4

theorem fallbackGrid_length (H W r c : Nat) : (fallbackGrid H W r c).length = r * c := by
  simp [fallbackGrid, List.length_flatMap, Function.comp_def, List.map_const',
    List.sum_replicate, smul_eq_mul]

theorem fallbackGrid_ne_nil (H W r c : Nat) (hr : r ≠ 0) (hc : c ≠ 0) :
    fallbackGrid H W r c ≠ [] := by
  intro h
  have hz : r * c = 0 := by
    rw [← fallbackGrid_length H W r c, h]
    rfl
  rcases Nat.mul_eq_zero.1 hz with h1 | h1
  · exact hr h1
  · exact hc h1

theorem afterSweep_hinted (H W r c : Nat) (boxes : List Box) :
    afterSweep H W (some r) (some c) boxes
      = (c, r, (afterSweep H W (some r) (some c) boxes).2.2) := rfl

/-- Claim C1 (amended): when both grid dimensions are supplied and non-zero,
`detect_grid` on a decoded image never raises the no-cells-detected error:
whatever `_try_detection` returns, the call succeeds with grid dimensions
`(cols, rows)` and a non-empty box list, and when no parameter combination was
accepted every returned box comes from the synthetic uniform fallback grid
spanning the full image (after position deduplication the list may hold fewer
than `rows * cols` boxes, see the counterexample, but never zero). -/
theorem claim_C1 (f : (Frac × Frac) → (Frac × Frac) → List Box) (H W r c : Nat)
    (hr : r ≠ 0) (hc : c ≠ 0) :
    ∃ bs, detectGrid f H W (some r) (some c) = Except.ok (c, r, bs) ∧ bs ≠ [] ∧
      (sweepBoxes f (some r) (some c) = none → ∀ b ∈ bs, b ∈ fallbackGrid H W r c) := by
  cases hsw : sweepBoxes f (some r) (some c) with
  | some boxes =>
    have hgrid : detectGrid f H W (some r) (some c)
        = Except.ok (afterSweep H W (some r) (some c) boxes) := by
      unfold detectGrid
      rw [hsw]
    refine ⟨(afterSweep H W (some r) (some c) boxes).2.2, ?_, ?_, ?_⟩
    · rw [hgrid, afterSweep_hinted]
    · exact afterSweep_ne_nil H W _ _ (sweepBoxes_some_ne_nil hsw)
    · intro hnone
      simp at hnone
  | none =>
    have hgrid : detectGrid f H W (some r) (some c)
        = Except.ok (afterSweep H W (some r) (some c) (fallbackGrid H W r c)) := by
      unfold detectGrid
      rw [hsw]
      simp [hr, hc]
    refine ⟨(afterSweep H W (some r) (some c) (fallbackGrid H W r c)).2.2, ?_, ?_, ?_⟩
    · rw [hgrid, afterSweep_hinted]
    · exact afterSweep_ne_nil H W _ _ (fallbackGrid_ne_nil H W r c hr hc)
    · intro _ b hb
      exact afterSweep_mem H W _ _ hb

theorem claim_C1_witness :
    ∃ bs, detectGrid (fun _ _ => []) 10 10 (some 2) (some 2) = Except.ok (2, 2, bs) ∧
      bs ≠ [] ∧ (sweepBoxes (fun _ _ => []) (some 2) (some 2) = none →
        ∀ b ∈ bs, b ∈ fallbackGrid 10 10 2 2) :=
  claim_C1 (fun _ _ => []) 10 10 2 2 (by decide) (by decide)

/-- Counterexample to claim C1 as stated: for a decodable 5 × 5 image with hint
3 × 3 and a detection oracle finding nothing, `detect_grid` returns 4 boxes,
not exactly `grid_rows × grid_cols = 9` — the position-deduplication pass drops
fallback cells whose centres land in an already-used grid cell when cells are
under two pixels wide. -/
theorem claim_C1_counterexample :
    ((detectGrid (fun _ _ => []) 5 5 (some 3) (some 3)).toOption.map
      (fun t => t.2.2.length) = some 4) ∧ (4 : Nat) ≠ 3 * 3 :=
  ⟨by decide, by decide⟩

theorem ocrCleanup_cases (t : List Char) :
    ocrCleanup t = [] ∨ (ocrCleanup t = pyStrip (collapseWs (sanitizeText t)) ∧
      ¬ (pyStrip (collapseWs (sanitizeText t))).length < 2) := by
  by_cases hcond : (decide ((pyStrip (collapseWs (sanitizeText t))).length < 2)
      || (!(pyStrip (collapseWs (sanitizeText t))).isEmpty
          && (pyStrip (collapseWs (sanitizeText t))).all isWsChar)) = true
  · left
    simp only [ocrCleanup]
    rw [if_pos hcond]
  · right
    constructor
    · simp only [ocrCleanup]
      rw [if_neg hcond]
    · intro hlt
      exact hcond (by simp [hlt])

/-- Claim C9: `detect_cell_content` never raises on content-quality issues: the
mean colour is always returned; when the OCR step fails (first call raising, or
the fallback second call raising) the text is empty; and any recognized text
shorter than 2 characters after cleanup is replaced by the empty string. -/
theorem claim_C9 (ocrWord ocrLine : Except Unit (List Char)) (avgColor : Int × Int × Int) :
    ((detectCellContent ocrWord ocrLine avgColor).colorB = avgColor.1 ∧
     (detectCellContent ocrWord ocrLine avgColor).colorG = avgColor.2.1 ∧
     (detectCellContent ocrWord ocrLine avgColor).colorR = avgColor.2.2) ∧
    (∀ e, ocrWord = Except.error e → (detectCellContent ocrWord ocrLine avgColor).text = []) ∧
    (∀ e t1, ocrWord = Except.ok t1 → pyStrip t1 = [] → ocrLine = Except.error e →
      (detectCellContent ocrWord ocrLine avgColor).text = []) ∧
    ((detectCellContent ocrWord ocrLine avgColor).text ≠ [] →
      2 ≤ (detectCellContent ocrWord ocrLine avgColor).text.length) := by
  cases ocrWord with
  | error e =>
    have hres : detectCellContent (Except.error e) ocrLine avgColor
        = CellContent.mk [] avgColor.1 avgColor.2.1 avgColor.2.2 := rfl
    rw [hres]
    refine ⟨⟨rfl, rfl, rfl⟩, ?_, ?_, ?_⟩
    · intro _ _
      rfl
    · intro e2 t1 h1 _ _
      cases h1
    · intro h
      exact absurd rfl h
  | ok t1 =>
    by_cases hstrip : (pyStrip t1).isEmpty = true
    · cases ocrLine with
      | error e2 =>
        have hres : detectCellContent (Except.ok t1) (Except.error e2) avgColor
            = CellContent.mk [] avgColor.1 avgColor.2.1 avgColor.2.2 := by
          simp [detectCellContent, hstrip]
        rw [hres]
        refine ⟨⟨rfl, rfl, rfl⟩, ?_, ?_, ?_⟩
        · intro e3 h
          cases h
        · intro _ _ _ _ _
          rfl
        · intro h
          exact absurd rfl h
      | ok t2 =>
        have hres : detectCellContent (Except.ok t1) (Except.ok t2) avgColor
            = CellContent.mk (ocrCleanup (pyStrip t2)) avgColor.1 avgColor.2.1 avgColor.2.2 := by
          simp [detectCellContent, hstrip]
        rw [hres]
        refine ⟨⟨rfl, rfl, rfl⟩, ?_, ?_, ?_⟩
        · intro e3 h
          cases h
        · intro e3 t3 h1 h2 h3
          cases h3
        · intro h
          rcases ocrCleanup_cases (pyStrip t2) with h1 | ⟨hEq, hLen⟩
          · exact absurd h1 h
          · rw [hEq]
            show 2 ≤ (pyStrip (collapseWs (sanitizeText (pyStrip t2)))).length
            omega
    · have hres : detectCellContent (Except.ok t1) ocrLine avgColor
          = CellContent.mk (ocrCleanup (pyStrip t1)) avgColor.1 avgColor.2.1 avgColor.2.2 := by
        simp [detectCellContent, hstrip]
      rw [hres]
      refine ⟨⟨rfl, rfl, rfl⟩, ?_, ?_, ?_⟩
      · intro e3 h
        cases h
      · intro e3 t3 h1 h2 h3
        cases h1
        rw [h2] at hstrip
        simp at hstrip
      · intro h
        rcases ocrCleanup_cases (pyStrip t1) with h1 | ⟨hEq, hLen⟩
        · exact absurd h1 h
        · rw [hEq]
          show 2 ≤ (pyStrip (collapseWs (sanitizeText (pyStrip t1)))).length
          omega

theorem claim_C9_witness :
    (detectCellContent (Except.error ()) (Except.ok "ab".data) (1, 2, 3)).text = [] ∧
    (detectCellContent (Except.error ()) (Except.ok "ab".data) (1, 2, 3)).colorB = 1 :=
  ⟨(claim_C9 (Except.error ()) (Except.ok "ab".data) (1, 2, 3)).2.1 () rfl,
   (claim_C9 (Except.error ()) (Except.ok "ab".data) (1, 2, 3)).1.1⟩

/-- Claim C10: `can_process` returns `True` exactly when the file path's
extension, lowercased, is one of `.png`, `.jpg`, `.jpeg`, `.bmp`, and `False`
for every other path; the embedding is a pure function of the path string
alone, so the answer is independent of the file's existence or contents. -/
theorem claim_C10 (p : List Char) :
    canProcess p = true ↔ lowerStr (pathSuffixOf p) ∈ allowedExtensions := by
  have h : canProcess p
      = List.elem (lowerStr (pathSuffixOf p)) allowedExtensions := rfl
  rw [h, List.elem_iff]

theorem sweepAspects_eq_findSome (f : (Frac × Frac) → (Frac × Frac) → List Box)
    (accept : Nat → Bool) (a : Frac × Frac) :
    ∀ l, sweepAspects f accept a l
      = (l.map (fun s => (a, s))).findSome? (comboStep f accept) := by
  intro l
  induction l with
  | nil => rfl
  | cons s rest ih =>
    by_cases hc : (!(f a s).isEmpty && accept (f a s).length) = true
    · simp [sweepAspects, hc, comboStep]
    · simp [sweepAspects, hc, comboStep, ih]

theorem sweepAreas_eq_findSome (f : (Frac × Frac) → (Frac × Frac) → List Box)
    (accept : Nat → Bool) :
    ∀ l, sweepAreas f accept l
      = (l.flatMap (fun a => aspectRanges.map (fun s => (a, s)))).findSome?
          (comboStep f accept) := by
  intro l
  induction l with
  | nil => rfl
  | cons a rest ih =>
    rw [List.flatMap_cons, List.findSome?_append, sweepAreas, ← ih,
      ← sweepAspects_eq_findSome]
    cases sweepAspects f accept a aspectRanges with
    | some bs => rfl
    | none => rfl

/-- Claim C4 (amended): the detection-parameter combinations are tried in a
fixed priority order — area ranges from most permissive to most restrictive
when both dimensions were supplied and from most restrictive to most permissive
without a hint, aspect ranges always from most permissive to most restrictive —
and the sweep stops at the first combination whose non-empty box count meets
the acceptance threshold: at least 50% of `rows * cols` when both dimensions
were supplied and non-zero, and at least 12 boxes otherwise. -/
theorem claim_C4 (f : (Frac × Frac) → (Frac × Frac) → List Box)
    (gridRows gridCols : Option Nat) :
    (sweepBoxes f gridRows gridCols
      = firstAccepted f (acceptCount gridRows gridCols) (comboList gridRows gridCols)) ∧
    (∀ r c n, r ≠ 0 → c ≠ 0 →
      (acceptCount (some r) (some c) n = true ↔ r * c ≤ 2 * n)) ∧
    (∀ n, acceptCount none none n = decide (12 ≤ n)) ∧
    areaRangesHinted.Chain' (fun p q => rangeWithin q p) ∧
    areaRangesDefault.Chain' (fun p q => rangeWithin p q) ∧
    aspectRanges.Chain' (fun p q => rangeWithin q p) := by
  refine ⟨?_, ?_, ?_, ?_, ?_, ?_⟩
  · unfold sweepBoxes comboList firstAccepted
    by_cases h : (gridRows.isSome && gridCols.isSome) = true
    · rw [if_pos h, sweepAreas_eq_findSome]
      rfl
    · rw [if_neg h, sweepAreas_eq_findSome]
      rfl
  · intro r c n hr hc
    have ht : (truthy (some r) && truthy (some c)) = true := by
      simp [truthy, hr, hc]
    unfold acceptCount
    rw [if_pos ht]
    simp only [Option.getD_some, decide_eq_true_eq, Frac.le, Frac.mul, Frac.ofNat]
    constructor
    · intro h2
      zify
      push_cast at h2 ⊢
      omega
    · intro h2
      zify at h2
      push_cast at h2 ⊢
      omega
  · intro n
    rfl
  · simp only [areaRangesHinted, List.chain'_cons, List.chain'_singleton, and_true]
    exact ⟨by decide, by decide, by decide⟩
  · simp only [areaRangesDefault, List.chain'_cons, List.chain'_singleton, and_true]
    exact ⟨by decide, by decide⟩
  · simp only [aspectRanges, List.chain'_cons, List.chain'_singleton, and_true]
    exact ⟨by decide, by decide, by decide⟩

/-- Counterexample to claim C4 as stated ("tried from most restrictive to most
permissive"): with dimensions supplied, the first area range tried strictly
contains the last one, and the first aspect range tried strictly contains the
last one — those sweeps start at the most permissive end. -/
theorem claim_C4_counterexample :
    areaRangesHinted.head? = some (⟨5, 10000⟩, ⟨2, 10⟩) ∧
    areaRangesHinted.getLast? = some (⟨5, 1000⟩, ⟨5, 100⟩) ∧
    Frac.lt ⟨5, 10000⟩ ⟨5, 1000⟩ ∧ Frac.lt ⟨5, 100⟩ ⟨2, 10⟩ ∧
    aspectRanges.head? = some (⟨2, 10⟩, ⟨5, 1⟩) ∧
    aspectRanges.getLast? = some (⟨8, 10⟩, ⟨12, 10⟩) ∧
    Frac.lt ⟨2, 10⟩ ⟨8, 10⟩ ∧ Frac.lt ⟨12, 10⟩ ⟨5, 1⟩ := by
  decide

theorem claim_C4_witness :
    (sweepBoxes (fun _ _ => []) (some 2) (some 3)
      = firstAccepted (fun _ _ => []) (acceptCount (some 2) (some 3))
          (comboList (some 2) (some 3))) ∧
    (acceptCount (some 2) (some 3) 4 = true ↔ 2 * 3 ≤ 2 * 4) :=
  ⟨(claim_C4 (fun _ _ => []) (some 2) (some 3)).1,
   (claim_C4 (fun _ _ => []) (some 2) (some 3)).2.1 2 3 4 (by decide) (by decide)⟩

theorem findClusters_eq_spec (coords : List Frac) :
    findClusters coords = clusterDimSpec coords := by
  cases coords with
  | nil => rfl
  | cons a rest =>
    simp only [findClusters, clusterDimSpec, List.length_cons]
    rw [List.countP_eq_length_filter]
    simp [Nat.add_comm]

/-- Claim C8: when no dimensions are supplied and `detect_grid` succeeds, each
returned axis dimension equals one plus the number of consecutive gaps between
the sorted box-centre coordinates (of the accepted sweep result) that exceed
both 1.2 times the median gap and 0.8 times the mean gap; and the cluster count
of an axis with zero box centres is 0. -/
theorem claim_C8 (f : (Frac × Frac) → (Frac × Frac) → List Box) (H W : Nat)
    (cols rows : Nat) (bxs : List Box)
    (h : detectGrid f H W none none = Except.ok (cols, rows, bxs)) :
    (∃ raw, sweepBoxes f none none = some raw ∧
      cols = clusterDimSpec ((List.insertionSort boxYXLe raw).map centerX) ∧
      rows = clusterDimSpec ((List.insertionSort boxYXLe raw).map centerY)) ∧
    clusterDimSpec [] = 0 := by
  refine ⟨?_, rfl⟩
  unfold detectGrid at h
  cases hsw : sweepBoxes f none none with
  | none =>
    rw [hsw] at h
    cases h
  | some raw =>
    rw [hsw] at h
    simp only [Except.ok.injEq] at h
    refine ⟨raw, rfl, ?_, ?_⟩
    · have h1 := congrArg Prod.fst h
      rw [← findClusters_eq_spec]
      simpa [afterSweep, gridDims] using h1.symm
    · have h1 := congrArg (fun t => t.2.1) h
      rw [← findClusters_eq_spec]
      simpa [afterSweep, gridDims] using h1.symm

theorem claim_C8_witness :
    (∃ raw, sweepBoxes
        (fun _ _ => (List.range 12).map (fun (i : Nat) => Box.mk (10 * (i : Int)) 0 8 8))
        none none = some raw ∧
      1 = clusterDimSpec ((List.insertionSort boxYXLe raw).map centerX) ∧
      1 = clusterDimSpec ((List.insertionSort boxYXLe raw).map centerY)) ∧
    clusterDimSpec [] = 0 :=
  claim_C8 (fun _ _ => (List.range 12).map (fun (i : Nat) => Box.mk (10 * (i : Int)) 0 8 8))
    20 120 1 1 [Box.mk 0 0 8 8] (by decide)

theorem sorted_order_stat {s : List Int} (hs : List.Sorted (fun a b : Int => a ≤ b) s) :
    ∀ (k : Nat) (hk : k < s.length),
      s.countP (fun y => decide (y < s.get ⟨k, hk⟩)) ≤ k ∧
      k < s.countP (fun y => decide (y ≤ s.get ⟨k, hk⟩)) := by
  induction s with
  | nil =>
    intro k hk
    simp at hk
  | cons a t ih =>
    intro k hk
    cases k with
    | zero =>
      constructor
      · have h2 : t.countP (fun y => decide (y < a)) = 0 := by
          rw [List.countP_eq_zero]
          intro y hy
          simpa using not_lt.2 (List.rel_of_sorted_cons hs y hy)
        simp [List.countP_cons, h2]
      · simp [List.countP_cons]
    | succ k2 =>
      have hk2 : k2 < t.length := by simpa using hk
      have hget : (a :: t).get ⟨k2 + 1, hk⟩ = t.get ⟨k2, hk2⟩ := rfl
      rw [hget]
      obtain ⟨ih1, ih2⟩ := ih hs.of_cons k2 hk2
      have hav : a ≤ t.get ⟨k2, hk2⟩ :=
        List.rel_of_sorted_cons hs _ (t.get_mem _ _)
      constructor
      · simp only [List.countP_cons]
        split <;> omega
      · have hd : decide (a ≤ t.get ⟨k2, hk2⟩) = true := by simpa using hav
        simp only [List.countP_cons, hd, eq_self_iff_true, if_true]
        omega

/-- Claim C5 (amended): with `ignore_rows = k > 0` and at least `k + 1`
detected boxes, the vertical grid origin is the `k`-th (0-based) smallest
detected box y-coordinate counted WITH multiplicity: at most `k` detected
y-values lie strictly below the origin and more than `k` lie at or below it.
The origin therefore skips `k` boxes' y-values, not `k` distinct detected
row-positions: see the counterexample, where the first detected row holds two
boxes, the origin stays at the topmost detected box, and the header row still
contributes a button. -/
theorem claim_C5 (ys : List Int) (k : Nat) (hk0 : 0 < k) (hk : k < ys.length) :
    ∃ v, gridOriginYE ys k = Except.ok v ∧
      ys.countP (fun y => decide (y < v)) ≤ k ∧
      k < ys.countP (fun y => decide (y ≤ v)) := by
  have hlen : k < (List.insertionSort (fun a b : Int => a ≤ b) ys).length := by
    rwa [(List.perm_insertionSort _ ys).length_eq]
  refine ⟨(List.insertionSort (fun a b : Int => a ≤ b) ys).get ⟨k, hlen⟩, ?_, ?_, ?_⟩
  · unfold gridOriginYE
    rw [if_neg (by omega : ¬ k = 0), List.get?_eq_get hlen]
  · have hstat := (sorted_order_stat (List.sorted_insertionSort _ ys) k hlen).1
    calc ys.countP _
        = (List.insertionSort (fun a b : Int => a ≤ b) ys).countP _ :=
          ((List.perm_insertionSort _ ys).countP_eq _).symm
      _ ≤ k := hstat
  · have hstat := (sorted_order_stat (List.sorted_insertionSort _ ys) k hlen).2
    calc k
        < (List.insertionSort (fun a b : Int => a ≤ b) ys).countP _ := hstat
      _ = ys.countP _ := (List.perm_insertionSort _ ys).countP_eq _

/-- Counterexample to claim C5 as stated: with four detected boxes in two rows
(two boxes at `y = 0`, two at `y = 20`) and `ignore_rows = 1`, the source takes
`sorted(y_coords)[1] = 0`, so the vertical grid origin stays at the topmost
detected box instead of moving past the first detected row-position, and the
top (header) row still produces a button. -/
theorem claim_C5_counterexample :
    gridOriginYE [0, 0, 20, 20] 1 = Except.ok 0 ∧
    (createPageFromScreenshot
        (fun _ _ =>
          [Box.mk 0 0 10 10, Box.mk 20 0 10 10, Box.mk 0 20 10 10, Box.mk 20 20 10 10])
        (fun r => if r = (0, 0, 20, 20) then [OCRItem.mk "top".data ⟨9, 10⟩] else [])
        (fun _ => (0, 0, 0)) 40 40 "img".data (some 2) (some 2) 1).toOption.map
          (fun p => p.buttons.map (fun b => (b.position, b.label)))
      = some [((0, 0), "top".data)] :=
  ⟨by decide, by decide⟩

theorem claim_C5_witness :
    ∃ v, gridOriginYE [3, 5, 7] 1 = Except.ok v ∧
      ([3, 5, 7] : List Int).countP (fun y => decide (y < v)) ≤ 1 ∧
      1 < ([3, 5, 7] : List Int).countP (fun y => decide (y ≤ v)) :=
  claim_C5 [3, 5, 7] 1 (by decide) (by decide)

/-- Claim C6: every merge performed by `merge_nearby_regions` is gated by
exactly the horizontal-merge eligibility test the claim lists (height ratio at
least `0.7`, top and bottom edges aligned within a third of the first region's
height, horizontal gap below the pixel threshold), and the merged region is the
bounding-box union of the pair, its text the two texts concatenated with a
separating space exactly when the last character of the first and the first
character of the second are both alphanumeric, and its confidence the minimum
of the two confidences.  Texts are assumed non-empty, as the source would raise
`IndexError` otherwise. -/
theorem claim_C6 (thr : Int) (r1 r2 : Region) (rest : List Region)
    (h1 : r1.text ≠ []) (h2 : r2.text ≠ []) :
    (canMergeRegions thr r1 r2 = true ↔ EligibleSpec thr r1 r2) ∧
    (mergeTwoRegions r1 r2 = mergedSpec r1 r2) ∧
    (mergeGroup thr r1 (r2 :: rest)
      = if EligibleSpec thr r1 r2
        then mergeGroup thr (mergedSpec r1 r2) rest
        else ((mergeGroup thr r1 rest).1, r2 :: (mergeGroup thr r1 rest).2)) := by
  have hiff : canMergeRegions thr r1 r2 = true ↔ EligibleSpec thr r1 r2 := by
    constructor
    · intro hb
      simp only [canMergeRegions] at hb
      split at hb
      · cases hb
      · next hnlt =>
        simp only [Bool.and_eq_true, decide_eq_true_eq] at hb
        refine ⟨?_, hb.1.1, hb.1.2, hb.2⟩
        simp only [decide_eq_true_eq] at hnlt
        unfold Frac.lt at hnlt
        unfold Frac.le
        omega
    · intro he
      obtain ⟨ha, hb1, hb2, hb3⟩ := he
      simp only [canMergeRegions]
      rw [if_neg ?hneg]
      case hneg =>
        simp only [decide_eq_true_eq]
        unfold Frac.le at ha
        unfold Frac.lt
        omega
      simp only [Bool.and_eq_true, decide_eq_true_eq]
      exact ⟨⟨hb1, hb2⟩, hb3⟩
  have hmerge : mergeTwoRegions r1 r2 = mergedSpec r1 r2 := by
    obtain ⟨c1, hc1⟩ : ∃ c, r1.text.getLast? = some c := by
      cases hx : r1.text.getLast? with
      | some c => exact ⟨c, rfl⟩
      | none =>
        rw [List.getLast?_eq_none_iff] at hx
        exact absurd hx h1
    obtain ⟨c2, hc2⟩ : ∃ c, r2.text.head? = some c := by
      cases hx : r2.text.head? with
      | some c => exact ⟨c, rfl⟩
      | none =>
        rw [List.head?_eq_none_iff] at hx
        exact absurd hx h2
    by_cases hal : (c1.isAlphanum && c2.isAlphanum) = true
    · simp [mergeTwoRegions, mergedSpec, unionBox, bothAdjoiningAlnum, hc1, hc2, hal]
    · simp [mergeTwoRegions, mergedSpec, unionBox, bothAdjoiningAlnum, hc1, hc2, hal]
  refine ⟨hiff, hmerge, ?_⟩
  by_cases hc : canMergeRegions thr r1 r2 = true
  · rw [if_pos (hiff.1 hc)]
    have hstep : mergeGroup thr r1 (r2 :: rest)
        = mergeGroup thr (mergeTwoRegions r1 r2) rest := by
      simp [mergeGroup, hc]
    rw [hstep, hmerge]
  · rw [if_neg (fun he => hc (hiff.2 he))]
    simp [mergeGroup, hc]

theorem claim_C6_witness :
    (canMergeRegions 15 (Region.mk 0 0 10 10 "ab".data ⟨9, 10⟩ 0 0 0)
        (Region.mk 11 0 10 10 "cd".data ⟨8, 10⟩ 0 0 0) = true
      ↔ EligibleSpec 15 (Region.mk 0 0 10 10 "ab".data ⟨9, 10⟩ 0 0 0)
          (Region.mk 11 0 10 10 "cd".data ⟨8, 10⟩ 0 0 0)) ∧
    (mergeTwoRegions (Region.mk 0 0 10 10 "ab".data ⟨9, 10⟩ 0 0 0)
        (Region.mk 11 0 10 10 "cd".data ⟨8, 10⟩ 0 0 0)
      = mergedSpec (Region.mk 0 0 10 10 "ab".data ⟨9, 10⟩ 0 0 0)
          (Region.mk 11 0 10 10 "cd".data ⟨8, 10⟩ 0 0 0)) ∧
    (mergeGroup 15 (Region.mk 0 0 10 10 "ab".data ⟨9, 10⟩ 0 0 0)
        [Region.mk 11 0 10 10 "cd".data ⟨8, 10⟩ 0 0 0]
      = if EligibleSpec 15 (Region.mk 0 0 10 10 "ab".data ⟨9, 10⟩ 0 0 0)
            (Region.mk 11 0 10 10 "cd".data ⟨8, 10⟩ 0 0 0)
        then mergeGroup 15 (mergedSpec (Region.mk 0 0 10 10 "ab".data ⟨9, 10⟩ 0 0 0)
            (Region.mk 11 0 10 10 "cd".data ⟨8, 10⟩ 0 0 0)) []
        else ((mergeGroup 15 (Region.mk 0 0 10 10 "ab".data ⟨9, 10⟩ 0 0 0) []).1,
          Region.mk 11 0 10 10 "cd".data ⟨8, 10⟩ 0 0 0
            :: (mergeGroup 15 (Region.mk 0 0 10 10 "ab".data ⟨9, 10⟩ 0 0 0) []).2)) :=
  claim_C6 15 (Region.mk 0 0 10 10 "ab".data ⟨9, 10⟩ 0 0 0)
    (Region.mk 11 0 10 10 "cd".data ⟨8, 10⟩ 0 0 0) [] (by decide) (by decide)

theorem mergeGroup_no (thr : Int) (acc : Region) :
    ∀ (l : List Region), (∀ r ∈ l, canMergeRegions thr acc r = false) →
      mergeGroup thr acc l = (acc, l) := by
  intro l
  induction l with
  | nil => intro _; rfl
  | cons r rest ih =>
    intro h
    have hr := h r (List.mem_cons_self _ _)
    rw [mergeGroup, if_neg (by simp [hr])]
    rw [ih (fun x hx => h x (List.mem_cons_of_mem _ hx))]

theorem mergeAllFuel_no (thr : Int) :
    ∀ (fuel : Nat) (l : List Region), l.length ≤ fuel →
      l.Pairwise (fun a b => canMergeRegions thr a b = false) →
      mergeAllFuel thr fuel l = l := by
  intro fuel
  induction fuel with
  | zero =>
    intro l hl _
    cases l with
    | nil => rfl
    | cons r rest => simp at hl
  | succ n ih =>
    intro l hl hp
    cases l with
    | nil => rfl
    | cons r rest =>
      have h1 : ∀ x ∈ rest, canMergeRegions thr r x = false := (List.pairwise_cons.1 hp).1
      simp only [mergeAllFuel]
      rw [mergeGroup_no thr r rest h1]
      simp only
      rw [ih rest (by simpa using hl) (List.pairwise_cons.1 hp).2]

/-- Claim C7 (amended): `merge_nearby_regions` is NOT idempotent in general —
merging enlarges bounding boxes, so a second pass can merge regions the first
pass left separate (see the counterexample).  It is a fixpoint exactly on the
inputs where the pass performs no merge: when no ordered pair of the sorted
region list passes the merge test, re-applying `merge_nearby_regions` to the
output returns it unchanged. -/
theorem claim_C7 (thr : Int) (l : List Region)
    (hp : (List.insertionSort regionYXLe l).Pairwise
      (fun a b => canMergeRegions thr a b = false)) :
    mergeNearbyRegions thr (mergeNearbyRegions thr l) = mergeNearbyRegions thr l := by
  have h1 : mergeNearbyRegions thr l = List.insertionSort regionYXLe l := by
    unfold mergeNearbyRegions mergeAll
    exact mergeAllFuel_no thr _ _ le_rfl hp
  rw [h1]
  unfold mergeNearbyRegions mergeAll
  rw [List.Sorted.insertionSort_eq (List.sorted_insertionSort regionYXLe l)]
  exact mergeAllFuel_no thr _ _ le_rfl hp

/-- Counterexample to claim C7 as stated: three regions where the first pass
merges only the last two, but their merged bounding box then becomes eligible
with the first region, so a second pass merges further and the output changes
(the list shrinks from two regions to one). -/
theorem claim_C7_counterexample :
    mergeNearbyRegions 15 (mergeNearbyRegions 15
        [Region.mk 0 0 30 12 "aaa".data ⟨9, 10⟩ 0 0 0,
         Region.mk 31 0 10 7 "bb".data ⟨8, 10⟩ 0 0 0,
         Region.mk 45 2 10 7 "cc".data ⟨7, 10⟩ 0 0 0])
      ≠ mergeNearbyRegions 15
        [Region.mk 0 0 30 12 "aaa".data ⟨9, 10⟩ 0 0 0,
         Region.mk 31 0 10 7 "bb".data ⟨8, 10⟩ 0 0 0,
         Region.mk 45 2 10 7 "cc".data ⟨7, 10⟩ 0 0 0] := by
  decide

theorem claim_C7_witness :
    mergeNearbyRegions 15 (mergeNearbyRegions 15
        [Region.mk 0 0 10 10 "aa".data ⟨9, 10⟩ 0 0 0,
         Region.mk 100 100 10 10 "bb".data ⟨9, 10⟩ 0 0 0])
      = mergeNearbyRegions 15
        [Region.mk 0 0 10 10 "aa".data ⟨9, 10⟩ 0 0 0,
         Region.mk 100 100 10 10 "bb".data ⟨9, 10⟩ 0 0 0] :=
  claim_C7 15
    [Region.mk 0 0 10 10 "aa".data ⟨9, 10⟩ 0 0 0,
     Region.mk 100 100 10 10 "bb".data ⟨9, 10⟩ 0 0 0] (by decide)

theorem cellButton_position (readCell : Int × Int × Int × Int → List OCRItem)
    (meanColor : Int × Int × Int × Int → Nat × Nat × Nat)
    (H W : Nat) (ox oy mw mh : Int) (row col n : Nat) (b : AACButton)
    (h : cellButton readCell meanColor H W ox oy mw mh row col n = some b) :
    b.position = (row, col) := by
  simp only [cellButton] at h
  split at h
  · cases h
  · cases h
    rfl

theorem innerFold_sublist (cb : Nat → Nat → Nat → Option AACButton) (row : Nat)
    (hcb : ∀ r c n b, cb r c n = some b → b.position = (r, c)) :
    ∀ (cs : List Nat) (acc : List AACButton),
      ∃ s, (cs.foldl (fun acc2 col =>
          match cb row col acc2.length with
          | some b => acc2 ++ [b]
          | none => acc2) acc) = acc ++ s ∧
        List.Sublist (s.map (fun b => b.position)) (cs.map (fun c => (row, c))) := by
  intro cs
  induction cs with
  | nil =>
    intro acc
    exact ⟨[], by simp, by simp⟩
  | cons c cs2 ih =>
    intro acc
    simp only [List.foldl_cons]
    cases hc : cb row c acc.length with
    | some b =>
      obtain ⟨s, hs1, hs2⟩ := ih (acc ++ [b])
      refine ⟨b :: s, ?_, ?_⟩
      · simp only [hc]
        rw [hs1]
        simp
      · have hb := hcb row c acc.length b hc
        simp only [List.map_cons, hb]
        exact List.Sublist.cons₂ _ hs2
    | none =>
      obtain ⟨s, hs1, hs2⟩ := ih acc
      refine ⟨s, ?_, ?_⟩
      · simp only [hc]
        exact hs1
      · exact hs2.cons _

theorem outerFold_sublist (cb : Nat → Nat → Nat → Option AACButton) (C : Nat)
    (hcb : ∀ r c n b, cb r c n = some b → b.position = (r, c)) :
    ∀ (rs : List Nat) (acc : List AACButton),
      ∃ s, (rs.foldl (fun acc row =>
          (List.range C).foldl (fun acc2 col =>
            match cb row col acc2.length with
            | some b => acc2 ++ [b]
            | none => acc2) acc) acc) = acc ++ s ∧
        List.Sublist (s.map (fun b => b.position))
          (rs.flatMap (fun r => (List.range C).map (fun c => (r, c)))) := by
  intro rs
  induction rs with
  | nil =>
    intro acc
    exact ⟨[], by simp, by simp⟩
  | cons r rs2 ih =>
    intro acc
    simp only [List.foldl_cons, List.flatMap_cons]
    obtain ⟨s1, hs1, hsub1⟩ := innerFold_sublist cb r hcb (List.range C) acc
    obtain ⟨s2, hs2, hsub2⟩ := ih (acc ++ s1)
    refine ⟨s1 ++ s2, ?_, ?_⟩
    · rw [hs1, hs2, List.append_assoc]
    · rw [List.map_append]
      exact hsub1.append hsub2

theorem buttonsLoop_map_position (cb : Nat → Nat → Nat → Option AACButton) (R C : Nat)
    (hcb : ∀ r c n b, cb r c n = some b → b.position = (r, c)) :
    List.Sublist ((buttonsLoop cb R C).map (fun b => b.position))
      ((List.range R).flatMap (fun r => (List.range C).map (fun c => (r, c)))) := by
  obtain ⟨s, hs, hsub⟩ := outerFold_sublist cb C hcb (List.range R) []
  unfold buttonsLoop
  rw [hs]
  simpa using hsub

theorem buttonsLoop_forall (cb : Nat → Nat → Nat → Option AACButton) (R C : Nat)
    (P : AACButton → Prop) (hcb : ∀ r c n b, cb r c n = some b → P b) :
    ∀ b ∈ buttonsLoop cb R C, P b := by
  have hinner : ∀ (row : Nat) (cs : List Nat) (acc : List AACButton),
      (∀ b ∈ acc, P b) →
      ∀ b ∈ cs.foldl (fun acc2 col =>
          match cb row col acc2.length with
          | some b => acc2 ++ [b]
          | none => acc2) acc, P b := by
    intro row cs
    induction cs with
    | nil => intro acc hacc; simpa using hacc
    | cons c cs2 ih =>
      intro acc hacc
      simp only [List.foldl_cons]
      cases hc : cb row c acc.length with
      | some b2 =>
        simp only [hc]
        refine ih (acc ++ [b2]) ?_
        intro b hb
        rcases List.mem_append.1 hb with h1 | h1
        · exact hacc b h1
        · simp at h1
          rw [h1]
          exact hcb row c acc.length b2 hc
      | none =>
        simp only [hc]
        exact ih acc hacc
  have houter : ∀ (rs : List Nat) (acc : List AACButton),
      (∀ b ∈ acc, P b) →
      ∀ b ∈ rs.foldl (fun acc row =>
          (List.range C).foldl (fun acc2 col =>
            match cb row col acc2.length with
            | some b => acc2 ++ [b]
            | none => acc2) acc) acc, P b := by
    intro rs
    induction rs with
    | nil => intro acc hacc; simpa using hacc
    | cons r rs2 ih =>
      intro acc hacc
      simp only [List.foldl_cons]
      exact ih _ (hinner r (List.range C) acc hacc)
  exact houter (List.range R) [] (by simp)

/-- Claim C2: for every page returned by `create_page_from_screenshot`, every
button position lies inside the page grid (`row < grid_size.1` and
`col < grid_size.2`; positions are naturals, so the lower bound `0 ≤` is
automatic), and no two buttons of the page share a position. -/
theorem claim_C2 (f : (Frac × Frac) → (Frac × Frac) → List Box)
    (readCell : Int × Int × Int × Int → List OCRItem)
    (meanColor : Int × Int × Int × Int → Nat × Nat × Nat)
    (H W : Nat) (stem : List Char) (gridRows gridCols : Option Nat) (ignoreRows : Nat)
    (page : AACPage)
    (h : createPageFromScreenshot f readCell meanColor H W stem gridRows gridCols ignoreRows
      = Except.ok page) :
    (∀ b ∈ page.buttons, b.position.1 < page.gridSize.1 ∧ b.position.2 < page.gridSize.2) ∧
    List.Pairwise (fun a b => a.position ≠ b.position) page.buttons := by
  simp only [createPageFromScreenshot] at h
  split at h
  · cases h
  · next detectedCols detectedRows gridBoxes heq =>
    split at h
    · cases h
    · split at h
      · cases h
      · next oy hoy =>
        cases h
        have hcb : ∀ r c n b, cellButton readCell meanColor H W
            (intMin (gridBoxes.map Box.x)) oy
            (pyInt (npMedian ((trimmedSizes (gridBoxes.map Box.w)).map Frac.ofInt)))
            (pyInt (npMedian ((trimmedSizes (gridBoxes.map Box.h)).map Frac.ofInt)))
            r c n = some b → b.position = (r, c) := by
          intro r c n b hb
          exact cellButton_position _ _ _ _ _ _ _ _ _ _ _ _ hb
        have hsub := buttonsLoop_map_position _ (gridRows.getD detectedRows)
          (gridCols.getD detectedCols) hcb
        constructor
        · intro b hb
          have hmem : b.position ∈ (List.range (gridRows.getD detectedRows)).flatMap
              (fun r => (List.range (gridCols.getD detectedCols)).map (fun c => (r, c))) :=
            hsub.mem (List.mem_map_of_mem _ hb)
          simp only [List.mem_flatMap, List.mem_map, List.mem_range] at hmem
          obtain ⟨r, hr, c, hc, hpos⟩ := hmem
          rw [← hpos]
          exact ⟨hr, hc⟩
        · have hnd : ((List.range (gridRows.getD detectedRows)).flatMap
              (fun r => (List.range (gridCols.getD detectedCols)).map
                (fun c => (r, c)))).Nodup := by
            have := List.Nodup.product (List.nodup_range (gridRows.getD detectedRows))
              (List.nodup_range (gridCols.getD detectedCols))
            exact this
          have hnd2 := hnd.sublist hsub
          exact List.pairwise_map.1 hnd2

theorem claim_C2_witness :
    (∀ b ∈ (AACPage.mk "screenshot_s".data "Detected Page - s".data (1, 2)
        [AACButton.mk "btn_0".data "go".data ButtonType.SPEAK (0, 1)
          (ButtonStyle.mk "#000000".data)]).buttons,
      b.position.1 < (AACPage.mk "screenshot_s".data "Detected Page - s".data (1, 2)
        [AACButton.mk "btn_0".data "go".data ButtonType.SPEAK (0, 1)
          (ButtonStyle.mk "#000000".data)]).gridSize.1 ∧
      b.position.2 < (AACPage.mk "screenshot_s".data "Detected Page - s".data (1, 2)
        [AACButton.mk "btn_0".data "go".data ButtonType.SPEAK (0, 1)
          (ButtonStyle.mk "#000000".data)]).gridSize.2) ∧
    List.Pairwise (fun a b => a.position ≠ b.position)
      (AACPage.mk "screenshot_s".data "Detected Page - s".data (1, 2)
        [AACButton.mk "btn_0".data "go".data ButtonType.SPEAK (0, 1)
          (ButtonStyle.mk "#000000".data)]).buttons :=
  claim_C2 (fun _ _ => [])
    (fun r => if r.1 = 45 then [OCRItem.mk "go".data ⟨1, 1⟩] else [])
    (fun _ => (0, 0, 0)) 100 100 "s".data (some 1) (some 2) 0
    (AACPage.mk "screenshot_s".data "Detected Page - s".data (1, 2)
      [AACButton.mk "btn_0".data "go".data ButtonType.SPEAK (0, 1)
        (ButtonStyle.mk "#000000".data)])
    (by decide)

theorem dropWhile_head_not (p : Char → Bool) :
    ∀ (l : List Char) (c : Char), (l.dropWhile p).head? = some c → p c = false := by
  intro l
  induction l with
  | nil =>
    intro c h
    simp at h
  | cons a t ih =>
    intro c h
    by_cases hp : p a = true
    · rw [List.dropWhile_cons_of_pos hp] at h
      exact ih c h
    · rw [List.dropWhile_cons_of_neg hp] at h
      simp at h
      rw [← h]
      simpa using hp

theorem pyStrip_noEdgeWs (l : List Char) : NoEdgeWs (pyStrip l) := by
  constructor
  · intro c hc
    unfold pyStrip at hc
    rw [List.head?_reverse] at hc
    obtain ⟨t, ht⟩ := List.dropWhile_suffix (l := (l.dropWhile isWsChar).reverse) isWsChar
    have h2 : ((l.dropWhile isWsChar).reverse).getLast? = some c := by
      rw [← ht, List.getLast?_append, hc]
      rfl
    rw [List.getLast?_reverse] at h2
    exact dropWhile_head_not isWsChar l c h2
  · intro c hc
    unfold pyStrip at hc
    rw [List.getLast?_reverse] at hc
    exact dropWhile_head_not isWsChar _ c hc

theorem cleanCellTexts_mem {results : List OCRItem} {t : List Char}
    (h : t ∈ cleanCellTexts results) : t ≠ [] ∧ NoEdgeWs t := by
  unfold cleanCellTexts at h
  rw [List.mem_filterMap] at h
  obtain ⟨it, _, hit⟩ := h
  simp only at hit
  split at hit
  · cases hit
  · split at hit
    · next hcond =>
      cases hit
      simp only [Bool.and_eq_true, Bool.not_eq_true'] at hcond
      refine ⟨?_, pyStrip_noEdgeWs it.text⟩
      intro hnil
      rw [hnil] at hcond
      simp at hcond
    · cases hit

theorem joinSpace_clean : ∀ (ts : List (List Char)),
    (∀ t ∈ ts, t ≠ [] ∧ NoEdgeWs t) → ts ≠ [] →
    joinSpace ts ≠ [] ∧ NoEdgeWs (joinSpace ts) := by
  intro ts
  induction ts with
  | nil =>
    intro _ h
    exact absurd rfl h
  | cons t rest ih =>
    intro hall _
    cases rest with
    | nil =>
      simpa [joinSpace] using hall t (List.mem_cons_self _ _)
    | cons t2 rest2 =>
      obtain ⟨hne, hedge⟩ := hall t (List.mem_cons_self _ _)
      obtain ⟨hne2, hedge2⟩ :=
        ih (fun x hx => hall x (List.mem_cons_of_mem _ hx)) (by simp)
      have hJ : joinSpace (t :: t2 :: rest2) = t ++ ' ' :: joinSpace (t2 :: rest2) := rfl
      constructor
      · rw [hJ]
        cases t with
        | nil => exact absurd rfl hne
        | cons a t3 => simp
      · constructor
        · intro c hc
          rw [hJ] at hc
          cases t with
          | nil => exact absurd rfl hne
          | cons a t3 =>
            simp only [List.cons_append, List.head?_cons, Option.some.injEq] at hc
            rw [← hc]
            exact hedge.1 a rfl
        · intro c hc
          rw [hJ] at hc
          rw [List.getLast?_append] at hc
          have hJne : joinSpace (t2 :: rest2) ≠ [] := hne2
          cases hg : (joinSpace (t2 :: rest2)).getLast? with
          | none =>
            rw [List.getLast?_eq_none_iff] at hg
            exact absurd hg hJne
          | some c2 =>
            have : (' ' :: joinSpace (t2 :: rest2)).getLast? = some c2 := by
              have hsplit : (' ' :: joinSpace (t2 :: rest2))
                  = [' '] ++ joinSpace (t2 :: rest2) := rfl
              rw [hsplit, List.getLast?_append, hg]
              rfl
            rw [this] at hc
            cases hc
            exact hedge2.2 c hg

theorem cellButton_label (readCell : Int × Int × Int × Int → List OCRItem)
    (meanColor : Int × Int × Int × Int → Nat × Nat × Nat)
    (H W : Nat) (ox oy mw mh : Int) (row col n : Nat) (b : AACButton)
    (h : cellButton readCell meanColor H W ox oy mw mh row col n = some b) :
    b.label ≠ [] ∧ NoEdgeWs b.label := by
  simp only [cellButton] at h
  split at h
  · cases h
  · next hne =>
    cases h
    apply joinSpace_clean
    · intro t ht
      exact cleanCellTexts_mem ht
    · intro hnil
      rw [hnil] at hne
      simp at hne

/-- Claim C3 (amended): every button label produced by
`create_page_from_screenshot` is non-empty and has no leading or trailing
whitespace (each OCR fragment is stripped, empties are dropped, and the
surviving fragments are joined with single spaces).  The restriction to
letters, digits, spaces, hyphens and periods claimed for labels does NOT hold
(see the counterexample): that sanitization lives in `detect_cell_content`,
which this code path never calls — the page loop keeps whatever characters the
OCR engine returned. -/
theorem claim_C3 (f : (Frac × Frac) → (Frac × Frac) → List Box)
    (readCell : Int × Int × Int × Int → List OCRItem)
    (meanColor : Int × Int × Int × Int → Nat × Nat × Nat)
    (H W : Nat) (stem : List Char) (gridRows gridCols : Option Nat) (ignoreRows : Nat)
    (page : AACPage)
    (h : createPageFromScreenshot f readCell meanColor H W stem gridRows gridCols ignoreRows
      = Except.ok page) :
    ∀ b ∈ page.buttons, b.label ≠ [] ∧ NoEdgeWs b.label := by
  simp only [createPageFromScreenshot] at h
  split at h
  · cases h
  · next detectedCols detectedRows gridBoxes heq =>
    split at h
    · cases h
    · split at h
      · cases h
      · next oy hoy =>
        cases h
        apply buttonsLoop_forall
        intro r c n b hb
        exact cellButton_label _ _ _ _ _ _ _ _ _ _ _ _ hb

/-- Counterexample to claim C3 as stated: a 1 × 1 page built from an OCR result
reading `hi!` keeps the exclamation mark in the button label, violating the
claimed letters/digits/space/hyphen/period character set. -/
theorem claim_C3_counterexample :
    ((createPageFromScreenshot (fun _ _ => [])
        (fun _ => [OCRItem.mk "hi!".data ⟨9, 10⟩])
        (fun _ => (0, 0, 0)) 100 100 "img".data (some 1) (some 1) 0).toOption.map
      (fun p => p.buttons.map (fun b => b.label)) = some ["hi!".data]) ∧
    ¬ CleanLabel "hi!".data := by
  constructor
  · decide
  · intro hcl
    exact absurd (hcl.1 '!' (by decide)) (by decide)

theorem claim_C3_witness :
    "hey".data ≠ [] ∧ NoEdgeWs "hey".data :=
  claim_C3 (fun _ _ => []) (fun _ => [OCRItem.mk " hey ".data ⟨9, 10⟩])
    (fun _ => (0, 0, 0)) 50 50 "w".data (some 1) (some 1) 0
    (AACPage.mk "screenshot_w".data "Detected Page - w".data (1, 1)
      [AACButton.mk "btn_0".data "hey".data ButtonType.SPEAK (0, 0)
        (ButtonStyle.mk "#000000".data)])
    (by decide)
    (AACButton.mk "btn_0".data "hey".data ButtonType.SPEAK (0, 0)
      (ButtonStyle.mk "#000000".data))
    (by simp)
